import Mathlib

/-!
Verification development for the graph storage engine and the Luhmann-style
hierarchical addressing scheme of the `agent-office` repository.

The Rust source is shallowly embedded: `tokio::sync::RwLock`-guarded
`HashMap`s become association lists inside an explicit state record, fallible
async methods become pure functions returning `Except StorageError _`
together with the successor state, `u32` arithmetic is modelled on `Nat`
modulo `2 ^ 32`, and timestamps (`chrono::DateTime<Utc>`, a totally ordered
instant) are modelled as `Int`.
-/

/- ────────────────────────── Entity model (src/domain/mod.rs) ───────────── -/

/-- `src/domain/mod.rs`: `pub type NodeId = uuid::Uuid`.  The 128-bit UUID is
an opaque identifier with decidable equality; it is modelled as `Nat`. -/
abbrev NodeId := Nat

/-- `src/domain/mod.rs`: `pub type EdgeId = uuid::Uuid`. -/
abbrev EdgeId := Nat

/-- `src/domain/mod.rs`: `pub type Timestamp = chrono::DateTime<chrono::Utc>`,
a totally ordered instant, modelled as `Int`. -/
abbrev Timestamp := Int

/-- `src/domain/mod.rs` `enum PropertyValue`.  The `Float(f64)` payload is
carried as its raw 64-bit pattern (`Nat`); no code path embedded here computes
with it.  `Map(HashMap<String, PropertyValue>)` is modelled as an association
list. -/
inductive PropertyValue where
  | string (s : String)
  | integer (i : Int)
  | float (bits : Nat)
  | boolean (b : Bool)
  | timestamp (t : Timestamp)
  | list (xs : List PropertyValue)
  | map (m : List (String × PropertyValue))
  | null

/-- `src/domain/mod.rs`: `pub type Properties = HashMap<String, PropertyValue>`,
modelled as an association list (insertion order stands in for the map's
iteration order). -/
abbrev Properties := List (String × PropertyValue)

/-- `src/domain/mod.rs` `struct Node`. -/
structure Node where
  id : NodeId
  node_type : String
  properties : Properties
  created_at : Timestamp
  updated_at : Timestamp

/-- `src/domain/mod.rs` `struct Edge`. -/
structure Edge where
  id : EdgeId
  edge_type : String
  from_node_id : NodeId
  to_node_id : NodeId
  properties : Properties
  created_at : Timestamp

/- ─────────────────── Storage interface types (src/storage/mod.rs) ──────── -/

/-- `src/storage/mod.rs` `enum StorageError`.  Note: the type has exactly these
five variants; there is no `AlreadyExists` variant anywhere in the code. -/
inductive StorageError where
  | NodeNotFound (id : NodeId)
  | EdgeNotFound (id : EdgeId)
  | DatabaseError (msg : String)
  | SerializationError (msg : String)
  | ConstraintViolation (msg : String)
deriving DecidableEq

/-- `src/storage/mod.rs` `enum OrderBy`. -/
inductive OrderBy where
  | CreatedAt
  | UpdatedAt
  | Relevance
deriving DecidableEq

/-- `src/storage/mod.rs` `enum OrderDirection`. -/
inductive OrderDirection where
  | Asc
  | Desc
deriving DecidableEq

/-- `src/storage/mod.rs` `struct SearchQuery`. -/
structure SearchQuery where
  node_types : List String
  search_text : Option String
  search_fields : List String
  created_after : Option Timestamp
  created_before : Option Timestamp
  updated_after : Option Timestamp
  property_filters : List (String × String)
  limit : Nat
  offset : Nat
  order_by : OrderBy
  order_direction : OrderDirection

/-- `src/storage/mod.rs` `impl Default for SearchQuery`. -/
def SearchQuery.default : SearchQuery :=
  { node_types := []
    search_text := none
    search_fields := []
    created_after := none
    created_before := none
    updated_after := none
    property_filters := []
    limit := 50
    offset := 0
    order_by := OrderBy.UpdatedAt
    order_direction := OrderDirection.Desc }

/-- `src/storage/mod.rs` `struct SearchResults<T>`.  The declaration requires
all six fields; the in-memory backend populates all of them. -/
structure SearchResults (T : Type) where
  items : List T
  total_count : Nat
  returned_count : Nat
  has_more : Bool
  limit : Nat
  offset : Nat

/-- `src/storage/mod.rs` `enum EdgeDirection`. -/
inductive EdgeDirection where
  | Outgoing
  | Incoming
  | Both
deriving DecidableEq

/- ──────────────── Association-list model of std::collections::HashMap ──── -/

/-- `HashMap::get` on the association-list model (first binding wins). -/
def lookupA {α : Type} (l : List (Nat × α)) (k : Nat) : Option α :=
  match l with
  | [] => none
  | p :: rest => if p.1 = k then some p.2 else lookupA rest k

/-- `HashMap::contains_key` on the association-list model. -/
def containsA {α : Type} (l : List (Nat × α)) (k : Nat) : Bool :=
  match l with
  | [] => false
  | p :: rest => p.1 = k || containsA rest k

/-- `HashMap::insert` on the association-list model: the new binding replaces
any existing binding for the same key. -/
def insertA {α : Type} (l : List (Nat × α)) (k : Nat) (v : α) : List (Nat × α) :=
  (k, v) :: l.filter (fun p => p.1 ≠ k)

/-- `HashMap::remove` on the association-list model. -/
def removeA {α : Type} (l : List (Nat × α)) (k : Nat) : List (Nat × α) :=
  l.filter (fun p => p.1 ≠ k)

/- ─────────── serde_json serialization model (used by search matching) ──── -/

/-- JSON string escaping as used by `serde_json` for the characters the model
cares about (quote and backslash; control-character escapes are not exercised
by any embedded code path). -/
def escapeJson (s : String) : String :=
  ⟨s.data.flatMap fun c =>
    if c = '"' then ['\\', '"']
    else if c = '\\' then ['\\', '\\']
    else [c]⟩

/-- `serde_json::to_string` of a `PropertyValue`.  The derive on the Rust enum
is externally tagged with `rename_all = "snake_case"`, so e.g.
`PropertyValue::String("x")` serializes as `{"string":"x"}`.  Floats are
printed from their bit pattern (never exercised by an embedded code path). -/
def jsonOfProp : PropertyValue → String
  | .string s => "\x7b\"string\":\"" ++ escapeJson s ++ "\"\x7d"
  | .integer i => "\x7b\"integer\":" ++ toString i ++ "\x7d"
  | .float bits => "\x7b\"float\":" ++ toString bits ++ "\x7d"
  | .boolean b => "\x7b\"boolean\":" ++ (if b then "true" else "false") ++ "\x7d"
  | .timestamp t => "\x7b\"timestamp\":" ++ toString t ++ "\x7d"
  | .list xs =>
      "\x7b\"list\":[" ++
        String.intercalate "," (xs.attach.map fun x => jsonOfProp x.1) ++ "]\x7d"
  | .map m =>
      "\x7b\"map\":\x7b" ++
        String.intercalate ","
          (m.attach.map fun p => "\"" ++ escapeJson p.1.1 ++ "\":" ++ jsonOfProp p.1.2) ++
        "\x7d\x7d"
  | .null => "\"null\""
decreasing_by
  · have := List.sizeOf_lt_of_mem x.2
    simp only [PropertyValue.list.sizeOf_spec]
    omega
  · have h := List.sizeOf_lt_of_mem p.2
    have h2 : sizeOf p.1.2 < sizeOf p.1 := by
      obtain ⟨a, b⟩ := p.1
      simp only [Prod.mk.sizeOf_spec]
      omega
    simp only [PropertyValue.map.sizeOf_spec]
    omega

/-- `serde_json::to_string(&node.properties)`: the property map as a JSON
object (the association list's order stands in for the map's iteration
order). -/
def jsonOfProps (props : Properties) : String :=
  "\x7b" ++
    String.intercalate ","
      (props.map fun p => "\"" ++ escapeJson p.1 ++ "\":" ++ jsonOfProp p.2) ++
  "\x7d"

/-- `str::to_lowercase`, restricted to its ASCII action (the embedded inputs
are ASCII). -/
def asciiLowerChar (c : Char) : Char :=
  if 65 ≤ c.toNat ∧ c.toNat ≤ 90 then Char.ofNat (c.toNat + 32) else c

/-- Lowercase an entire string, character by character. -/
def lowerStr (s : String) : String := ⟨s.data.map asciiLowerChar⟩

/-- Substring occurrence over character lists. -/
def isSubstrList (needle : List Char) : List Char → Bool
  | [] => needle.isEmpty
  | c :: t => needle.isPrefixOf (c :: t) || isSubstrList needle t

/-- `str::contains(&str)`: substring test. -/
def isSubstr (needle hay : String) : Bool :=
  isSubstrList needle.data hay.data

/- ─────────────── In-memory backend (src/storage/memory.rs) ─────────────── -/

/-- The two `RwLock`-guarded `HashMap`s of `InMemoryStorage`, as one explicit
state record. -/
structure MemState where
  nodes : List (NodeId × Node)
  edges : List (EdgeId × Edge)

/-- `InMemoryStorage::new`. -/
def MemState.new : MemState := ⟨[], []⟩

/-- `edge_type.map_or(true, |et| edge.edge_type == et)`. -/
def matchesEdgeType (edge_type : Option String) (e : Edge) : Bool :=
  match edge_type with
  | none => true
  | some et => e.edge_type == et

/-- `InMemoryStorage::matches_search_query` (src/storage/memory.rs:43-92),
translated clause by clause. -/
def matchesSearchQuery (node : Node) (query : SearchQuery) : Bool :=
  -- Check node types
  if !query.node_types.isEmpty && !query.node_types.contains node.node_type then
    false
  -- Check text search
  else if (match query.search_text with
           | some search_text =>
               !(isSubstr (lowerStr search_text) (lowerStr (jsonOfProps node.properties)))
           | none => false) then
    false
  -- Check created time range
  else if (match query.created_after with
           | some after => decide (node.created_at < after)
           | none => false) then
    false
  else if (match query.created_before with
           | some before => decide (node.created_at > before)
           | none => false) then
    false
  -- Check updated time range
  else if (match query.updated_after with
           | some after => decide (node.updated_at < after)
           | none => false) then
    false
  -- Check property filters
  else
    query.property_filters.all fun kv =>
      match node.properties.find? (fun p => p.1 == kv.1) with
      | some p =>
          let prop_str := jsonOfProp p.2
          let value_str := "\"" ++ kv.2 ++ "\""
          !(prop_str ≠ value_str && prop_str ≠ kv.2)
      | none => false

/-- `InMemoryStorage::create_node` (src/storage/memory.rs:103-112).  On a
duplicate identifier the code returns `StorageError::ConstraintViolation`
(there is no `AlreadyExists` variant) and leaves the map untouched. -/
def createNode (st : MemState) (node : Node) : Except StorageError Node × MemState :=
  if containsA st.nodes node.id then
    (.error (.ConstraintViolation s!"Node with ID {node.id} already exists"), st)
  else
    (.ok node, { st with nodes := insertA st.nodes node.id node })

/-- `InMemoryStorage::get_node` (src/storage/memory.rs:114-119). -/
def getNode (st : MemState) (id : NodeId) : Except StorageError Node :=
  match lookupA st.nodes id with
  | some n => .ok n
  | none => .error (.NodeNotFound id)

/-- `InMemoryStorage::update_node` (src/storage/memory.rs:121-128). -/
def updateNode (st : MemState) (node : Node) : Except StorageError Node × MemState :=
  if !containsA st.nodes node.id then
    (.error (.NodeNotFound node.id), st)
  else
    (.ok node, { st with nodes := insertA st.nodes node.id node })

/-- `InMemoryStorage::delete_node` (src/storage/memory.rs:130-145): rejects a
missing id, otherwise retains only edges not touching the node and removes the
node. -/
def deleteNode (st : MemState) (id : NodeId) : Except StorageError Unit × MemState :=
  if !containsA st.nodes id then
    (.error (.NodeNotFound id), st)
  else
    (.ok (),
      { nodes := removeA st.nodes id
        edges := st.edges.filter fun p =>
          p.2.from_node_id ≠ id && p.2.to_node_id ≠ id })

/-- `InMemoryStorage::create_edge` (src/storage/memory.rs:162-178): verifies
both endpoints exist, then inserts (replacing any edge stored under the same
id). -/
def createEdge (st : MemState) (edge : Edge) : Except StorageError Edge × MemState :=
  if !containsA st.nodes edge.from_node_id then
    (.error (.NodeNotFound edge.from_node_id), st)
  else if !containsA st.nodes edge.to_node_id then
    (.error (.NodeNotFound edge.to_node_id), st)
  else
    (.ok edge, { st with edges := insertA st.edges edge.id edge })

/-- `InMemoryStorage::delete_edge` (src/storage/memory.rs:187-194). -/
def deleteEdge (st : MemState) (id : EdgeId) : Except StorageError Unit × MemState :=
  if !containsA st.edges id then
    (.error (.EdgeNotFound id), st)
  else
    (.ok (), { st with edges := removeA st.edges id })

/-- `InMemoryStorage::get_edges_from` (src/storage/memory.rs:196-207). -/
def getEdgesFrom (st : MemState) (node_id : NodeId) (edge_type : Option String) :
    List Edge :=
  (st.edges.filter fun p =>
      p.2.from_node_id == node_id && matchesEdgeType edge_type p.2).map (·.2)

/-- `InMemoryStorage::get_edges_to` (src/storage/memory.rs:209-220). -/
def getEdgesTo (st : MemState) (node_id : NodeId) (edge_type : Option String) :
    List Edge :=
  (st.edges.filter fun p =>
      p.2.to_node_id == node_id && matchesEdgeType edge_type p.2).map (·.2)

/-- `InMemoryStorage::get_neighbors` (src/storage/memory.rs:222-262): one pass
over the edge map collecting neighbor ids per the direction match (arms whose
guard fails fall through to `_ => {}`), then a lookup of each id that drops
missing nodes (`filter_map`). -/
def getNeighbors (st : MemState) (node_id : NodeId) (edge_type : Option String)
    (direction : EdgeDirection) : List Node :=
  let neighbor_ids : List NodeId := st.edges.flatMap fun p =>
    let matches_type := matchesEdgeType edge_type p.2
    match direction with
    | .Outgoing =>
        if p.2.from_node_id == node_id && matches_type then [p.2.to_node_id] else []
    | .Incoming =>
        if p.2.to_node_id == node_id && matches_type then [p.2.from_node_id] else []
    | .Both =>
        if matches_type && (p.2.from_node_id == node_id || p.2.to_node_id == node_id) then
          [if p.2.from_node_id == node_id then p.2.to_node_id else p.2.from_node_id]
        else []
  neighbor_ids.filterMap fun i => lookupA st.nodes i

/- ───────────── Stable sort model for Vec::sort_by (used by search) ─────── -/

/-- Insert `a` into `l` after every element `b` with `le b a`.  Equal elements
keep their relative order, matching the stability guarantee of
`Vec::sort_by`. -/
def insertLe {α : Type} (le : α → α → Bool) (a : α) : List α → List α
  | [] => [a]
  | b :: l => if le b a then b :: insertLe le a l else a :: b :: l

/-- Stable sort by a boolean "less or equal" relation (left-to-right insertion
sort).  For a total preorder the output of any stable sort is unique, so this
coincides with `Vec::sort_by`'s result. -/
def sortByLe {α : Type} (le : α → α → Bool) (l : List α) : List α :=
  l.foldl (fun acc a => insertLe le a acc) []

/- ─────────────── search_nodes of the in-memory backend ─────────────────── -/

/-- The comparator of `InMemoryStorage::search_nodes` (src/storage/memory.rs:
274-285) as a boolean "less or equal": compare by the `order_by` key
(`Relevance` falls back to `updated_at`), reversed for `Desc`. -/
def searchLe (query : SearchQuery) (a b : Node) : Bool :=
  let keyA := match query.order_by with
    | .CreatedAt => a.created_at
    | .UpdatedAt => a.updated_at
    | .Relevance => a.updated_at
  let keyB := match query.order_by with
    | .CreatedAt => b.created_at
    | .UpdatedAt => b.updated_at
    | .Relevance => b.updated_at
  match query.order_direction with
  | .Asc => decide (keyA ≤ keyB)
  | .Desc => decide (keyB ≤ keyA)

/-- `InMemoryStorage::search_nodes` (src/storage/memory.rs:264-310): filter
the node map's values, stable-sort by the query's comparator, record
`total_count` and `has_more` from the unpaginated result, then apply
`skip(offset).take(limit)`. -/
def searchNodes (st : MemState) (query : SearchQuery) : SearchResults Node :=
  let results :=
    sortByLe (searchLe query)
      ((st.nodes.map (·.2)).filter (fun n => matchesSearchQuery n query))
  let total_count := results.length
  let offset := query.offset
  let limit := query.limit
  let has_more := decide (results.length > offset + limit)
  let paginated := (results.drop offset).take limit
  { items := paginated
    total_count := total_count
    returned_count := paginated.length
    has_more := has_more
    limit := limit
    offset := offset }

/- ───────────── Relational backend model (src/storage/postgres.rs) ──────── -/

/-- The two tables created by `PostgresStorage::setup_tables`
(src/storage/postgres.rs:15-129): `nodes` rows and `edges` rows, the latter
constrained by `PRIMARY KEY (id)` and
`FOREIGN KEY (from_node_id|to_node_id) REFERENCES nodes(id)`. -/
structure PgState where
  nodes : List Node
  edges : List Edge

/-- `SELECT ... FROM nodes WHERE id = $1` row existence. -/
def pgHasNode (st : PgState) (id : NodeId) : Bool :=
  st.nodes.any fun n => n.id == id

/-- `edges` primary-key existence. -/
def pgHasEdge (st : PgState) (id : EdgeId) : Bool :=
  st.edges.any fun e => e.id == id

/-- The opaque message of a constraint-violating INSERT: sqlx surfaces the
database error as a string, which `PostgresStorage` wraps via
`map_err(|e| StorageError::DatabaseError(e.to_string()))`.  The exact text
comes from the database driver and is modelled as a fixed string. -/
def pgConstraintMsg : String := "database constraint violation"

/-- Behavioral model of `PostgresStorage::create_edge`
(src/storage/postgres.rs:287-308): a bare `INSERT INTO edges` with no
endpoint check in code.  Under the schema of `setup_tables`, an INSERT whose
`from_node_id`/`to_node_id` has no matching `nodes` row (foreign key), or
whose `id` already exists (primary key), fails; the code maps that failure to
`StorageError::DatabaseError` — not to `NodeNotFound`. -/
def pgCreateEdge (st : PgState) (edge : Edge) :
    Except StorageError Edge × PgState :=
  if !pgHasNode st edge.from_node_id || !pgHasNode st edge.to_node_id
      || pgHasEdge st edge.id then
    (.error (.DatabaseError pgConstraintMsg), st)
  else
    (.ok edge, { st with edges := st.edges ++ [edge] })

/-- `ORDER BY created_at DESC` (ties in an unspecified order; the model keeps
the stable order). -/
def pgOrderCreatedDesc (rows : List Edge) : List Edge :=
  sortByLe (fun a b => decide (b.created_at ≤ a.created_at)) rows

/-- `PostgresStorage::get_edges_from` (src/storage/postgres.rs:310-357):
`WHERE from_node_id = $1 [AND edge_type = $2] ORDER BY created_at DESC`. -/
def pgGetEdgesFrom (st : PgState) (node_id : NodeId) (edge_type : Option String) :
    List Edge :=
  pgOrderCreatedDesc (st.edges.filter fun e =>
    e.from_node_id == node_id && matchesEdgeType edge_type e)

/-- `PostgresStorage::get_edges_to` (src/storage/postgres.rs:359-406). -/
def pgGetEdgesTo (st : PgState) (node_id : NodeId) (edge_type : Option String) :
    List Edge :=
  pgOrderCreatedDesc (st.edges.filter fun e =>
    e.to_node_id == node_id && matchesEdgeType edge_type e)

/-- `PostgresStorage::get_node` (src/storage/postgres.rs:168-198). -/
def pgGetNode (st : PgState) (id : NodeId) : Except StorageError Node :=
  match st.nodes.find? (fun n => n.id == id) with
  | some n => .ok n
  | none => .error (.NodeNotFound id)

/-- `PostgresStorage::get_neighbors` (src/storage/postgres.rs:408-441),
translated match arm by match arm: the first `match direction` handles only
`Outgoing`, the second only `Incoming`; every other direction — in particular
`Both` — falls through `_ => {}`, so `Both` collects nothing. -/
def pgGetNeighbors (st : PgState) (node_id : NodeId) (edge_type : Option String)
    (direction : EdgeDirection) : List Node :=
  let part1 : List Node :=
    match direction with
    | .Outgoing =>
        (pgGetEdgesFrom st node_id edge_type).filterMap fun e =>
          (pgGetNode st e.to_node_id).toOption
    | _ => []
  let part2 : List Node :=
    match direction with
    | .Incoming =>
        (pgGetEdgesTo st node_id edge_type).filterMap fun e =>
          (pgGetNode st e.from_node_id).toOption
    | _ => []
  part1 ++ part2

/-- The WHERE clause built by `PostgresStorage::search_nodes`
(src/storage/postgres.rs:443-494), evaluated row by row: node-type IN list,
case-insensitive substring over the serialized properties (`ILIKE`), time
ranges, and text equality on extracted property values. -/
def pgSearchMatches (query : SearchQuery) (n : Node) : Bool :=
  (query.node_types.isEmpty || query.node_types.contains n.node_type)
  && (match query.search_text with
      | none => true
      | some t => isSubstr (lowerStr t) (lowerStr (jsonOfProps n.properties)))
  && (match query.created_after with
      | none => true
      | some a => decide (a ≤ n.created_at))
  && (match query.created_before with
      | none => true
      | some b => decide (n.created_at ≤ b))
  && (match query.updated_after with
      | none => true
      | some a => decide (a ≤ n.updated_at))
  && (query.property_filters.all fun kv =>
        match n.properties.find? (fun p => p.1 == kv.1) with
        | some p => jsonOfProp p.2 == kv.2
        | none => false)

/-- Behavioral model of the rows produced by `PostgresStorage::search_nodes`
(src/storage/postgres.rs:443-523): matching rows are always ordered
`ORDER BY updated_at DESC` — the query's `order_by`/`order_direction` are
never consulted — then `LIMIT limit+1 OFFSET offset` is applied and the code
keeps `take(limit)` of the fetched rows.  The source then builds
`SearchResults { items: nodes }` with no `total_count`/`has_more`/
`returned_count`/`limit`/`offset` fields, so only the item list is modelled
here. -/
def pgSearchItems (st : PgState) (query : SearchQuery) : List Node :=
  let rows :=
    sortByLe (fun a b => decide (b.updated_at ≤ a.updated_at))
      (st.nodes.filter (pgSearchMatches query))
  (((rows.drop query.offset).take (query.limit + 1)).take query.limit)

/- ───────────── Luhmann addresses (src/services/kb/domain.rs) ────────────── -/

/-- `char::is_ascii_digit`. -/
def isAsciiDigit (c : Char) : Bool := decide (48 ≤ c.toNat ∧ c.toNat ≤ 57)

/-- `char::is_ascii_alphabetic`. -/
def isAsciiAlpha (c : Char) : Bool :=
  decide ((65 ≤ c.toNat ∧ c.toNat ≤ 90) ∨ (97 ≤ c.toNat ∧ c.toNat ≤ 122))

/-- `src/services/kb/domain.rs` `enum LuhmannPart`.  `Number(u32)` carries a
`Nat`; the parser only ever stores values below `2 ^ 32`. -/
inductive LuhmannPart where
  | Number (n : Nat)
  | Letter (c : Char)
deriving DecidableEq

/-- `src/services/kb/domain.rs` `struct LuhmannId`. -/
structure LuhmannId where
  parts : List LuhmannPart
deriving DecidableEq

/-- The value of a digit run, as accumulated by `str::parse::<u32>` (most
significant digit first). -/
def digitsToNat (run : List Char) : Nat :=
  run.foldl (fun acc c => acc * 10 + (c.toNat - 48)) 0

/-- Decimal digits of `n`, least significant first, with fuel (`fuel` bounds
the digit count; callers pass `n + 1`, which always suffices). -/
def natDigitsRev (fuel n : Nat) : List Char :=
  match fuel with
  | 0 => []
  | f + 1 =>
      if n < 10 then [Char.ofNat (n + 48)]
      else Char.ofNat (n % 10 + 48) :: natDigitsRev f (n / 10)

/-- The canonical decimal rendering of `n`, as produced by `write!("{}", n)`
on a `u32`. -/
def natToDigits (n : Nat) : List Char := (natDigitsRev (n + 1) n).reverse

/-- Flush a maximal pending digit run, as `LuhmannId::parse` does when a run
ends: `num_str.parse::<u32>()` succeeds exactly when the value fits in `u32`,
and only then is a `Number` segment pushed. -/
def flushRun (run : List Char) (tail : List LuhmannPart) : List LuhmannPart :=
  if run.isEmpty then tail
  else if digitsToNat run < 2 ^ 32 then .Number (digitsToNat run) :: tail
  else tail

/-- `char::to_ascii_lowercase`. -/
def toAsciiLowercase (c : Char) : Char :=
  if 65 ≤ c.toNat ∧ c.toNat ≤ 90 then Char.ofNat (c.toNat + 32) else c

/-- The tokenizer loop of `LuhmannId::parse` (src/services/kb/domain.rs:24-57)
with the pending maximal digit run made explicit: a digit extends the run, an
ASCII letter flushes the run and emits a lowercased `Letter`, any other
character flushes the run and is skipped, and the end of input flushes the
final run. -/
def luhmannTokens (run : List Char) : List Char → List LuhmannPart
  | [] => flushRun run []
  | c :: rest =>
      if isAsciiDigit c then luhmannTokens (run ++ [c]) rest
      else if isAsciiAlpha c then
        flushRun run (.Letter (toAsciiLowercase c) :: luhmannTokens [] rest)
      else
        flushRun run (luhmannTokens [] rest)

namespace LuhmannId

/-- `LuhmannId::parse` (src/services/kb/domain.rs:24-57): tokenize; `None`
exactly when no segment results. -/
def parse (s : List Char) : Option LuhmannId :=
  let parts := luhmannTokens [] s
  if parts.isEmpty then none else some ⟨parts⟩

end LuhmannId

/-- The text of a token sequence, as written by `impl Display for LuhmannId`
(src/services/kb/domain.rs:146-156): each part's canonical form with no
separators. -/
def renderParts (ps : List LuhmannPart) : List Char :=
  ps.flatMap fun p =>
    match p with
    | .Number n => natToDigits n
    | .Letter c => [c]

namespace LuhmannId

/-- `impl Display for LuhmannId` (src/services/kb/domain.rs:146-156). -/
def render (id : LuhmannId) : List Char := renderParts id.parts

/-- `LuhmannId::parent` (src/services/kb/domain.rs:60-68). -/
def parent (id : LuhmannId) : Option LuhmannId :=
  if id.parts.length ≤ 1 then none
  else some ⟨id.parts.dropLast⟩

/-- `LuhmannId::next_sibling` (src/services/kb/domain.rs:71-94).  A `Number`
segment is incremented with `u32` arithmetic (modelled modulo `2 ^ 32`); a
`Letter` segment becomes `(c as u8 + 1) as char` (byte arithmetic, modelled
modulo `256`) if that is at most `'z'`, otherwise the result is `None`. -/
def next_sibling (id : LuhmannId) : Option LuhmannId :=
  match id.parts.getLast? with
  | none => none
  | some (.Number n) =>
      some ⟨id.parts.dropLast ++ [.Number ((n + 1) % 2 ^ 32)]⟩
  | some (.Letter c) =>
      let next := Char.ofNat ((c.toNat % 256 + 1) % 256)
      if next ≤ 'z' then some ⟨id.parts.dropLast ++ [.Letter next]⟩
      else none

/-- `LuhmannId::first_child` (src/services/kb/domain.rs:97-109). -/
def first_child (id : LuhmannId) : LuhmannId :=
  match id.parts.getLast? with
  | some (.Number _) => ⟨id.parts ++ [.Letter 'a']⟩
  | _ => ⟨id.parts ++ [.Number 1]⟩

/-- A well-formed hierarchical address per the data model: a non-empty
sequence whose numeric segments fit in `u32` and whose letter segments are
single lowercase ASCII letters.  Every id produced by `parse` is of this
shape. -/
def valid (id : LuhmannId) : Bool :=
  !id.parts.isEmpty &&
    id.parts.all fun p =>
      match p with
      | .Number n => decide (n < 2 ^ 32)
      | .Letter c => decide (97 ≤ c.toNat ∧ c.toNat ≤ 122)

end LuhmannId

/-- The canonical form of an address text, per the spec's round-trip property:
all characters that are neither ASCII digits nor ASCII letters removed, and
all letters lowercased. -/
def canonicalForm (s : List Char) : List Char :=
  (s.filter fun c => isAsciiDigit c || isAsciiAlpha c).map toAsciiLowercase

/-- One maximal digit run is "canonical" when it is precisely the decimal
rendering of its own `u32` value: no leading zeros and no `u32` overflow. -/
def runOk (run : List Char) : Bool :=
  run.isEmpty ||
    (natToDigits (digitsToNat run) == run && decide (digitsToNat run < 2 ^ 32))

/-- Every maximal ASCII-digit run of the input is canonical in the sense of
`runOk`; the recursion mirrors `luhmannTokens`. -/
def goodRuns (run : List Char) : List Char → Bool
  | [] => runOk run
  | c :: rest =>
      if isAsciiDigit c then goodRuns (run ++ [c]) rest
      else runOk run && goodRuns [] rest

/- ─────────────────── Spec-side error taxonomy (spec §7) ────────────────── -/

/-- Modelled from the spec: the §7 error taxonomy — `NotFound`,
`AlreadyExists`, `ConstraintViolation`, `BackendError`.  The code's
`StorageError` has no `AlreadyExists` variant, so this spec-side enumeration
exists only to compare the two vocabularies. -/
inductive SpecErrorKind where
  | notFound
  | alreadyExists
  | constraintViolation
  | backendError
deriving DecidableEq

/-- Modelled from the spec: classification of the code's `StorageError`
variants by the §7 descriptions — `NotFound` is "node/edge absent",
`ConstraintViolation` is "backend rejected the write for integrity reasons",
`BackendError` is "opaque I/O/serialization failure".  No code variant
answers to "`AlreadyExists` (identifier collision on create)". -/
def classifyError : StorageError → SpecErrorKind
  | .NodeNotFound _ => .notFound
  | .EdgeNotFound _ => .notFound
  | .DatabaseError _ => .backendError
  | .SerializationError _ => .backendError
  | .ConstraintViolation _ => .constraintViolation

/- ─────────── Bounded breadth-first relation discovery (spec §4.6) ──────── -/

/-- Ids adjacent to `a` over the edge map, following edges in both
directions. -/
def adjacentIds (edges : List (EdgeId × Edge)) (a : NodeId) : List NodeId :=
  edges.flatMap fun p =>
    (if p.2.from_node_id == a then [p.2.to_node_id] else []) ++
    (if p.2.to_node_id == a then [p.2.from_node_id] else [])

/-- Modelled from the spec: the worker loop of §4.6 "bounded breadth-first
relation discovery" (no implementation ships under src/, only the spec
describes it): explore one hop per round from the current frontier, visiting
each node at most once, and accumulate the newly discovered nodes. -/
def relatedAux (edges : List (EdgeId × Edge)) :
    Nat → List NodeId → List NodeId → List NodeId → List NodeId
  | 0, _, discovered, _ => discovered
  | k + 1, visited, discovered, frontier =>
      let newIds :=
        ((frontier.flatMap (adjacentIds edges)).filter
          (fun v => !visited.contains v)).dedup
      relatedAux edges k (visited ++ newIds) (discovered ++ newIds) newIds

/-- Modelled from the spec: §4.6 `related(node, depth)` — starting from a
node, explore up to `depth` hops following edges in both directions, visiting
each node at most once, returning all newly-discovered node identifiers
(excluding the start node itself); depth 0 yields an empty result. -/
def related (st : MemState) (start : NodeId) (depth : Nat) : List NodeId :=
  relatedAux st.edges depth [start] [] [start]

/-- `b` is reachable from `a` in at most `k` hops, following edges in both
directions. -/
def reachWithin (edges : List (EdgeId × Edge)) : Nat → NodeId → NodeId → Prop
  | 0, a, b => a = b
  | k + 1, a, b => a = b ∨ ∃ c ∈ adjacentIds edges a, reachWithin edges k c b

/- ──────────────── Definitions supporting the remaining claims ──────────── -/

/-- The invariant of C5: every stored edge's endpoints are keys of the stored
node collection. -/
def EdgeInv (st : MemState) : Prop :=
  ∀ p ∈ st.edges, containsA st.nodes p.2.from_node_id = true ∧
    containsA st.nodes p.2.to_node_id = true

/-- The sort key a `SearchQuery` selects: creation time for `CreatedAt`,
update time for `UpdatedAt` (and for the `Relevance` fallback). -/
def orderKeyOf (q : SearchQuery) (n : Node) : Timestamp :=
  match q.order_by with
  | .CreatedAt => n.created_at
  | .UpdatedAt => n.updated_at
  | .Relevance => n.updated_at

/-- Two nodes appear in the order the query requests: key non-decreasing for
`Asc`, non-increasing for `Desc`. -/
def orderedByQuery (q : SearchQuery) (a b : Node) : Prop :=
  match q.order_direction with
  | .Asc => orderKeyOf q a ≤ orderKeyOf q b
  | .Desc => orderKeyOf q b ≤ orderKeyOf q a

/-- Concrete node with id 1 (example input). -/
def exNode1 : Node := ⟨1, "agent", [], 0, 0⟩

/-- Concrete node with id 2 (example input). -/
def exNode2 : Node := ⟨2, "note", [], 0, 0⟩

/-- A second node carrying id 1 with different payload (duplicate create). -/
def exNode1b : Node := ⟨1, "other", [], 3, 3⟩

/-- Concrete edge 1 → 2 with id 5 (example input). -/
def exEdgeA : Edge := ⟨5, "owns", 1, 2, [], 0⟩

/-- A second edge carrying id 5 with different payload (duplicate create). -/
def exEdgeB : Edge := ⟨5, "likes", 2, 1, [], 0⟩

/-- Memory state holding just node 1. -/
def exStOne : MemState := ⟨[(1, exNode1)], []⟩

/-- Memory state holding nodes 1, 2 (no edges). -/
def exStTwo : MemState := ⟨[(1, exNode1), (2, exNode2)], []⟩

/-- Memory state holding nodes 1, 2 and edge 5 : 1 → 2. -/
def exStGraph : MemState := ⟨[(1, exNode1), (2, exNode2)], [(5, exEdgeA)]⟩

/-- Postgres state holding nodes 1, 2 and edge 5 : 1 → 2. -/
def exPgGraph : PgState := ⟨[exNode1, exNode2], [exEdgeA]⟩

/-- Node created at 1, updated at 5. -/
def exNodeOld : Node := ⟨1, "note", [], 1, 5⟩

/-- Node created at 2, updated at 10. -/
def exNodeNew : Node := ⟨2, "note", [], 2, 10⟩

/-- Postgres state with two nodes whose creation order disagrees with their
update order. -/
def exPgTimes : PgState := ⟨[exNodeOld, exNodeNew], []⟩

/-- A query asking for ascending creation-time order. -/
def exQueryCreatedAsc : SearchQuery :=
  { SearchQuery.default with order_by := OrderBy.CreatedAt
                             order_direction := OrderDirection.Asc }

/-- Memory state with three nodes at distinct update times (pagination
example). -/
def exStThree : MemState :=
  ⟨[(1, ⟨1, "note", [], 0, 10⟩), (2, ⟨2, "note", [], 0, 20⟩),
    (3, ⟨3, "note", [], 0, 30⟩)], []⟩

theorem lookupA_eq_none {α : Type} (l : List (Nat × α)) (k : Nat) :
    containsA l k = false → lookupA l k = none := by
  induction l with
  | nil => intro _; rfl
  | cons p rest ih =>
    intro h
    simp only [containsA, Bool.or_eq_false_iff, decide_eq_false_iff_not] at h
    simp only [lookupA, if_neg h.1, ih h.2]

theorem containsA_of_lookupA {α : Type} {l : List (Nat × α)} {k : Nat} {v : α} :
    lookupA l k = some v → containsA l k = true := by
  induction l with
  | nil => intro h; simp [lookupA] at h
  | cons p rest ih =>
    intro h
    simp only [lookupA] at h
    simp only [containsA, Bool.or_eq_true, decide_eq_true_eq]
    by_cases hk : p.1 = k
    · exact Or.inl hk
    · exact Or.inr (ih (by simpa [hk] using h))

theorem mem_insertLe {α : Type} (le : α → α → Bool) (a x : α) (l : List α) :
    x ∈ insertLe le a l ↔ x = a ∨ x ∈ l := by
  induction l with
  | nil => simp [insertLe]
  | cons b t ih =>
    simp only [insertLe]
    by_cases h : le b a = true
    · simp only [if_pos h, List.mem_cons, ih]
      tauto
    · simp [if_neg h]

theorem length_insertLe {α : Type} (le : α → α → Bool) (a : α) (l : List α) :
    (insertLe le a l).length = l.length + 1 := by
  induction l with
  | nil => rfl
  | cons b t ih =>
    simp only [insertLe]
    by_cases h : le b a = true
    · simp [if_pos h, ih]
    · simp [if_neg h]

theorem pairwise_insertLe {α : Type} {le : α → α → Bool}
    (htot : ∀ a b, le a b = true ∨ le b a = true)
    (htrans : ∀ a b c, le a b = true → le b c = true → le a c = true)
    (a : α) {l : List α} (hl : l.Pairwise (fun x y => le x y = true)) :
    (insertLe le a l).Pairwise (fun x y => le x y = true) := by
  induction l with
  | nil => simp [insertLe]
  | cons b t ih =>
    rw [List.pairwise_cons] at hl
    simp only [insertLe]
    by_cases h : le b a = true
    · rw [if_pos h, List.pairwise_cons]
      refine ⟨fun y hy => ?_, ih hl.2⟩
      rcases (mem_insertLe le a y t).mp hy with rfl | hy
      · exact h
      · exact hl.1 y hy
    · rw [if_neg h, List.pairwise_cons]
      have hab : le a b = true := (htot a b).resolve_right (by simpa using h)
      refine ⟨fun y hy => ?_, List.pairwise_cons.mpr hl⟩
      rcases List.mem_cons.mp hy with rfl | hy
      · exact hab
      · exact htrans a b y hab (hl.1 y hy)

theorem pairwise_sortByLe {α : Type} {le : α → α → Bool}
    (htot : ∀ a b, le a b = true ∨ le b a = true)
    (htrans : ∀ a b c, le a b = true → le b c = true → le a c = true)
    (l : List α) : (sortByLe le l).Pairwise (fun x y => le x y = true) := by
  suffices h : ∀ (acc : List α), acc.Pairwise (fun x y => le x y = true) →
      (l.foldl (fun acc a => insertLe le a acc) acc).Pairwise
        (fun x y => le x y = true) by
    exact h [] List.Pairwise.nil
  induction l with
  | nil => intro acc hacc; simpa using hacc
  | cons a t ih =>
    intro acc hacc
    exact ih _ (pairwise_insertLe htot htrans a hacc)

theorem length_sortByLe {α : Type} (le : α → α → Bool) (l : List α) :
    (sortByLe le l).length = l.length := by
  suffices h : ∀ (acc : List α),
      (l.foldl (fun acc a => insertLe le a acc) acc).length = l.length + acc.length by
    simpa using h []
  induction l with
  | nil => intro acc; simp
  | cons a t ih =>
    intro acc
    simp only [List.foldl_cons, ih, length_insertLe, List.length_cons]
    omega

theorem mem_sortByLe {α : Type} (le : α → α → Bool) (x : α) (l : List α) :
    x ∈ sortByLe le l ↔ x ∈ l := by
  suffices h : ∀ (acc : List α),
      (x ∈ l.foldl (fun acc a => insertLe le a acc) acc ↔ x ∈ l ∨ x ∈ acc) by
    simpa using h []
  induction l with
  | nil => intro acc; simp
  | cons a t ih =>
    intro acc
    simp only [List.foldl_cons, ih, mem_insertLe, List.mem_cons]
    tauto

theorem reachWithin_succ_of {edges : List (EdgeId × Edge)} :
    ∀ {k : Nat} {a b : NodeId}, reachWithin edges k a b →
      reachWithin edges (k + 1) a b := by
  intro k
  induction k with
  | zero => intro a b h; exact Or.inl h
  | succ m ih =>
    intro a b h
    rcases h with h | ⟨c, hc, hr⟩
    · exact Or.inl h
    · exact Or.inr ⟨c, hc, ih hr⟩

theorem not_mem_of_contains_eq_false {l : List Nat} {a : Nat}
    (h : l.contains a = false) : a ∉ l := by
  intro hm
  have h2 : l.contains a = true := List.elem_iff.mpr hm
  rw [h] at h2
  exact Bool.false_ne_true h2

theorem reachWithin_refl (edges : List (EdgeId × Edge)) :
    ∀ (k : Nat) (a : NodeId), reachWithin edges k a a := by
  intro k a
  cases k with
  | zero => rfl
  | succ m => exact Or.inl rfl

/-- Everything the BFS returns is either already discovered or reachable from
the frontier within the remaining fuel. -/
theorem relatedAux_reach (edges : List (EdgeId × Edge)) :
    ∀ (k : Nat) (visited discovered frontier : List NodeId) (v : NodeId),
      v ∈ relatedAux edges k visited discovered frontier →
      v ∈ discovered ∨ ∃ f ∈ frontier, reachWithin edges k f v := by
  intro k
  induction k with
  | zero => intro visited discovered frontier v hv; exact Or.inl hv
  | succ m ih =>
    intro visited discovered frontier v hv
    simp only [relatedAux] at hv
    have newMem : ∀ x, x ∈ ((frontier.flatMap (adjacentIds edges)).filter
        (fun y => !visited.contains y)).dedup → ∃ g ∈ frontier, x ∈ adjacentIds edges g := by
      intro x hx
      exact List.mem_flatMap.mp (List.mem_filter.mp (List.mem_dedup.mp hx)).1
    rcases ih _ _ _ v hv with hd | ⟨f, hf, hr⟩
    · rcases List.mem_append.mp hd with hd | hnew
      · exact Or.inl hd
      · rcases newMem v hnew with ⟨g, hg, hvg⟩
        exact Or.inr ⟨g, hg, Or.inr ⟨v, hvg, reachWithin_refl edges m v⟩⟩
    · rcases newMem f hf with ⟨g, hg, hfg⟩
      exact Or.inr ⟨g, hg, Or.inr ⟨f, hfg, hr⟩⟩

/-- Everything the BFS returns is either already discovered or outside the
visited set. -/
theorem relatedAux_not_visited (edges : List (EdgeId × Edge)) :
    ∀ (k : Nat) (visited discovered frontier : List NodeId) (v : NodeId),
      v ∈ relatedAux edges k visited discovered frontier →
      v ∈ discovered ∨ v ∉ visited := by
  intro k
  induction k with
  | zero => intro visited discovered frontier v hv; exact Or.inl hv
  | succ m ih =>
    intro visited discovered frontier v hv
    simp only [relatedAux] at hv
    rcases ih _ _ _ v hv with hd | hnv
    · rcases List.mem_append.mp hd with hd | hnew
      · exact Or.inl hd
      · refine Or.inr fun hvis => ?_
        have := (List.mem_filter.mp (List.mem_dedup.mp hnew)).2
        rw [Bool.not_eq_eq_eq_not, Bool.not_true] at this
        exact not_mem_of_contains_eq_false this hvis
    · exact Or.inr fun hvis => hnv (List.mem_append.mpr (Or.inl hvis))

/-- The BFS result repeats no node, given that the accumulated discoveries are
distinct and all marked visited. -/
theorem relatedAux_nodup (edges : List (EdgeId × Edge)) :
    ∀ (k : Nat) (visited discovered frontier : List NodeId),
      discovered.Nodup → (∀ x ∈ discovered, x ∈ visited) →
      (relatedAux edges k visited discovered frontier).Nodup := by
  intro k
  induction k with
  | zero => intro visited discovered frontier hnd _; exact hnd
  | succ m ih =>
    intro visited discovered frontier hnd hsub
    simp only [relatedAux]
    set newIds := ((frontier.flatMap (adjacentIds edges)).filter
      (fun y => !visited.contains y)).dedup with hnew
    have hnewnd : newIds.Nodup := List.nodup_dedup _
    have hdisj : discovered.Disjoint newIds := by
      intro x hx hx2
      have := (List.mem_filter.mp (List.mem_dedup.mp hx2)).2
      rw [Bool.not_eq_eq_eq_not, Bool.not_true] at this
      exact not_mem_of_contains_eq_false this (hsub x hx)
    refine ih _ _ _ (hnd.append hnewnd hdisj) ?_
    intro x hx
    rcases List.mem_append.mp hx with hx | hx
    · exact List.mem_append.mpr (Or.inl (hsub x hx))
    · exact List.mem_append.mpr (Or.inr hx)

/- ───────────────── Round-trip lemmas for the address scheme ────────────── -/

theorem toAsciiLowercase_digit {c : Char} (h : isAsciiDigit c = true) :
    toAsciiLowercase c = c := by
  have hd := of_decide_eq_true h
  unfold toAsciiLowercase
  rw [if_neg]
  omega

theorem canonicalForm_append (a b : List Char) :
    canonicalForm (a ++ b) = canonicalForm a ++ canonicalForm b := by
  unfold canonicalForm
  rw [List.filter_append, List.map_append]

theorem canonicalForm_digit_run {run : List Char}
    (h : ∀ c ∈ run, isAsciiDigit c = true) : canonicalForm run = run := by
  induction run with
  | nil => rfl
  | cons c t ih =>
    have hc := h c (List.mem_cons_self c t)
    unfold canonicalForm
    rw [List.filter_cons, if_pos (by simp [hc])]
    rw [List.map_cons, toAsciiLowercase_digit hc]
    have := ih fun x hx => h x (List.mem_cons_of_mem c hx)
    unfold canonicalForm at this
    rw [this]

theorem renderParts_flushRun {run : List Char} (t : List LuhmannPart)
    (h : runOk run = true) :
    renderParts (flushRun run t) = run ++ renderParts t := by
  unfold runOk at h
  unfold flushRun
  by_cases he : run.isEmpty
  · rw [if_pos he]
    rw [List.isEmpty_iff.mp he]
    rfl
  · rw [if_neg he]
    rw [Bool.or_eq_true] at h
    rcases h with h | h
    · exact absurd h (by simpa using he)
    · rw [Bool.and_eq_true] at h
      rw [if_pos (of_decide_eq_true h.2)]
      show natToDigits (digitsToNat run) ++ renderParts t = run ++ renderParts t
      rw [eq_of_beq h.1]

theorem renderParts_luhmannTokens :
    ∀ (rest run : List Char), (∀ c ∈ run, isAsciiDigit c = true) →
      goodRuns run rest = true →
      renderParts (luhmannTokens run rest) = canonicalForm (run ++ rest) := by
  intro rest
  induction rest with
  | nil =>
    intro run hdig hgood
    unfold luhmannTokens
    rw [renderParts_flushRun [] hgood]
    show run ++ [] = canonicalForm (run ++ [])
    rw [List.append_nil, canonicalForm_digit_run hdig]
  | cons c t ih =>
    intro run hdig hgood
    unfold luhmannTokens
    unfold goodRuns at hgood
    by_cases hd : isAsciiDigit c = true
    · rw [if_pos hd]
      rw [if_pos hd] at hgood
      have hdig2 : ∀ x ∈ run ++ [c], isAsciiDigit x = true := by
        intro x hx
        rcases List.mem_append.mp hx with hx | hx
        · exact hdig x hx
        · rw [List.mem_singleton.mp hx]; exact hd
      rw [ih (run ++ [c]) hdig2 hgood, List.append_assoc, List.singleton_append]
    · rw [if_neg hd]
      rw [if_neg hd] at hgood
      rw [Bool.and_eq_true] at hgood
      by_cases ha : isAsciiAlpha c = true
      · rw [if_pos ha]
        rw [renderParts_flushRun _ hgood.1]
        have iht := ih [] (by intro x hx; cases hx) hgood.2
        rw [List.nil_append] at iht
        have hcons : canonicalForm (c :: t) = toAsciiLowercase c :: canonicalForm t := by
          unfold canonicalForm
          rw [List.filter_cons, if_pos (by simp [ha]), List.map_cons]
        show run ++ (toAsciiLowercase c :: renderParts (luhmannTokens [] t)) =
          canonicalForm (run ++ c :: t)
        rw [iht, canonicalForm_append, canonicalForm_digit_run hdig, hcons]
      · rw [if_neg ha]
        rw [renderParts_flushRun _ hgood.1]
        have iht := ih [] (by intro x hx; cases hx) hgood.2
        rw [List.nil_append] at iht
        have hcons : canonicalForm (c :: t) = canonicalForm t := by
          unfold canonicalForm
          rw [List.filter_cons, if_neg (by simp [hd, ha])]
        show run ++ renderParts (luhmannTokens [] t) = canonicalForm (run ++ c :: t)
        rw [iht, canonicalForm_append, canonicalForm_digit_run hdig, hcons]

theorem char_toNat_ofNat {n : Nat} (h : n.isValidChar) :
    (Char.ofNat n).toNat = n := by
  unfold Char.ofNat
  rw [dif_pos h]
  rfl

theorem char_le_iff_toNat (a b : Char) : a ≤ b ↔ a.toNat ≤ b.toNat := Iff.rfl

theorem char_toNat_inj {a b : Char} (h : a.toNat = b.toNat) : a = b := by
  rw [← Char.ofNat_toNat a, ← Char.ofNat_toNat b, h]

/- ─────────────────────────── Claim theorems ────────────────────────────── -/

/-- C6 counterexample: `parse` succeeds on `"01"` (one `Number 1` segment,
the leading zero being absorbed by `str::parse::<u32>`), but rendering gives
`"1"` while the canonical form of `"01"` keeps both characters, so
`render(parse(s)) = canonical_form(s)` fails at `s = "01"`. -/
theorem c6_leading_zero_counterexample :
    LuhmannId.parse ['0', '1'] = some ⟨[.Number 1]⟩ ∧
    LuhmannId.render ⟨[.Number 1]⟩ = ['1'] ∧
    canonicalForm ['0', '1'] = ['0', '1'] ∧
    LuhmannId.render ⟨[.Number 1]⟩ ≠ canonicalForm ['0', '1'] := by
  refine ⟨by decide, by decide, by decide, by decide⟩

/-- C6 (amended): for every input on which `parse` succeeds and whose maximal
ASCII-digit runs are each the canonical decimal form of a `u32` value (no
leading zeros, no overflow — `goodRuns`), rendering the parsed address yields
exactly the canonical form of the input (invalid characters stripped, letters
lowercased). -/
theorem c6_render_parse_canonical (s : List Char) (id : LuhmannId)
    (hruns : goodRuns [] s = true) (hparse : LuhmannId.parse s = some id) :
    LuhmannId.render id = canonicalForm s := by
  unfold LuhmannId.parse at hparse
  by_cases he : (luhmannTokens [] s).isEmpty
  · rw [if_pos he] at hparse
    exact absurd hparse (by simp)
  · rw [if_neg he] at hparse
    have : id = ⟨luhmannTokens [] s⟩ := (Option.some_inj.mp hparse).symm
    rw [this]
    show renderParts (luhmannTokens [] s) = canonicalForm s
    have := renderParts_luhmannTokens s [] (by intro x hx; cases hx) hruns
    rw [List.nil_append] at this
    exact this

/-- C6 witness: a concrete run of the amended round-trip at `s = "1a2B!"`. -/
theorem c6_render_parse_canonical_witness :
    goodRuns [] "1a2B!".data = true ∧
    LuhmannId.parse "1a2B!".data =
      some ⟨[.Number 1, .Letter 'a', .Number 2, .Letter 'b']⟩ ∧
    LuhmannId.render ⟨[.Number 1, .Letter 'a', .Number 2, .Letter 'b']⟩ =
      canonicalForm "1a2B!".data :=
  ⟨by decide, by decide,
    c6_render_parse_canonical "1a2B!".data
      ⟨[.Number 1, .Letter 'a', .Number 2, .Letter 'b']⟩ (by decide) (by decide)⟩

/-- C7 counterexample: at the valid address `[Number 4294967295]`
(`u32::MAX`), `next_sibling` performs the `u32` increment `n + 1`, which
cannot produce `4294967296`; under the wrapping model it yields `Number 0`,
so "an integer segment n becomes n+1" fails at this input. -/
theorem c7_next_sibling_wrap_counterexample :
    (⟨[.Number 4294967295]⟩ : LuhmannId).valid = true ∧
    LuhmannId.next_sibling ⟨[.Number 4294967295]⟩ = some ⟨[.Number 0]⟩ ∧
    LuhmannId.next_sibling ⟨[.Number 4294967295]⟩ ≠
      some ⟨[.Number (4294967295 + 1)]⟩ := by
  refine ⟨by decide, by decide, by decide⟩

/-- C7 (amended): on every well-formed address, `next_sibling` is `none`
exactly when the last segment is the letter `'z'`; otherwise only the last
segment is replaced — a `Number n` becomes `Number ((n+1) mod 2^32)` (which
is `n+1` whenever `n < 2^32 - 1`, the `u32` increment wrapping at the top),
and a `Letter c` with `c ≠ 'z'` becomes the next letter of the alphabet. -/
theorem c7_next_sibling_spec (id : LuhmannId) (hv : id.valid = true) :
    (id.next_sibling = none ↔ id.parts.getLast? = some (.Letter 'z')) ∧
    (∀ n, id.parts.getLast? = some (.Number n) →
      id.next_sibling = some ⟨id.parts.dropLast ++ [.Number ((n + 1) % 2 ^ 32)]⟩) ∧
    (∀ c, id.parts.getLast? = some (.Letter c) → c ≠ 'z' →
      id.next_sibling = some ⟨id.parts.dropLast ++
        [.Letter (Char.ofNat (c.toNat + 1))]⟩) := by
  unfold LuhmannId.valid at hv
  rw [Bool.and_eq_true] at hv
  have hne : id.parts ≠ [] := by
    intro h
    rw [h] at hv
    exact absurd hv.1 (by decide)
  obtain ⟨last, hlast⟩ : ∃ a, id.parts.getLast? = some a := by
    cases hl : id.parts.getLast? with
    | none => exact absurd (List.getLast?_eq_none_iff.mp hl) hne
    | some a => exact ⟨a, rfl⟩
  have hlast_ok := (List.all_eq_true.mp hv.2) last (List.mem_of_mem_getLast? hlast)
  cases last with
  | Number n =>
    have hsib : id.next_sibling =
        some ⟨id.parts.dropLast ++ [.Number ((n + 1) % 2 ^ 32)]⟩ := by
      unfold LuhmannId.next_sibling
      rw [hlast]
    refine ⟨?_, ?_, ?_⟩
    · rw [hsib, hlast]
      constructor
      · intro h; exact absurd h (by simp)
      · intro h; exact absurd h (by simp)
    · intro m hm
      rw [hlast] at hm
      have : n = m := by
        injection hm with h
        injection h
      rw [hsib, this]
    · intro c hc _
      rw [hlast] at hc
      exact absurd hc (by simp)
  | Letter c =>
    have hcrange : 97 ≤ c.toNat ∧ c.toNat ≤ 122 := of_decide_eq_true hlast_ok
    have hmod : (c.toNat % 256 + 1) % 256 = c.toNat + 1 := by omega
    have hvalidc : (c.toNat + 1).isValidChar := Or.inl (by omega)
    have hnextNat : (Char.ofNat ((c.toNat % 256 + 1) % 256)).toNat = c.toNat + 1 := by
      rw [hmod]
      exact char_toNat_ofNat hvalidc
    by_cases hz : c = 'z'
    · have hsib : id.next_sibling = none := by
        unfold LuhmannId.next_sibling
        rw [hlast]
        simp only
        rw [if_neg]
        rw [char_le_iff_toNat, hnextNat, hz]
        decide
      refine ⟨?_, ?_, ?_⟩
      · rw [hsib, hlast, hz]
        simp
      · intro m hm
        rw [hlast] at hm
        exact absurd hm (by simp)
      · intro d hd hdz
        rw [hlast] at hd
        have : c = d := by
          injection hd with h
          injection h
        exact absurd (this ▸ hz) hdz
    · have hle : c.toNat + 1 ≤ 122 := by
        rcases Nat.lt_or_ge c.toNat 122 with h | h
        · omega
        · have : c.toNat = 122 := by omega
          exact absurd (char_toNat_inj (by rw [this]; decide)) hz
      have hsib : id.next_sibling = some ⟨id.parts.dropLast ++
          [.Letter (Char.ofNat ((c.toNat % 256 + 1) % 256))]⟩ := by
        unfold LuhmannId.next_sibling
        rw [hlast]
        simp only
        rw [if_pos]
        rw [char_le_iff_toNat, hnextNat]
        exact hle
      refine ⟨?_, ?_, ?_⟩
      · rw [hsib, hlast]
        constructor
        · intro h; exact absurd h (by simp)
        · intro h
          have : c = 'z' := by
            injection h with h2
            injection h2
          exact absurd this hz
      · intro m hm
        rw [hlast] at hm
        exact absurd hm (by simp)
      · intro d hd _
        rw [hlast] at hd
        have hcd : c = d := by
          injection hd with h
          injection h
        rw [hsib, ← hcd, hmod]

/-- C7 witness: the amended statement at the concrete address `1a` — not at
the `'z'` boundary, so the sibling is `1b`. -/
theorem c7_next_sibling_spec_witness :
    (⟨[.Number 1, .Letter 'a']⟩ : LuhmannId).valid = true ∧
    LuhmannId.next_sibling ⟨[.Number 1, .Letter 'a']⟩ =
      some ⟨[.Number 1, .Letter 'b']⟩ :=
  ⟨by decide, by
    have h := (c7_next_sibling_spec ⟨[.Number 1, .Letter 'a']⟩ (by decide)).2.2
      'a' (by decide) (by decide)
    simpa using h⟩

theorem containsA_iff {α : Type} (l : List (Nat × α)) (k : Nat) :
    containsA l k = true ↔ ∃ p ∈ l, p.1 = k := by
  induction l with
  | nil => simp [containsA]
  | cons p rest ih =>
    simp only [containsA, Bool.or_eq_true, decide_eq_true_eq, ih, List.mem_cons]
    constructor
    · rintro (h | ⟨q, hq, hk⟩)
      · exact ⟨p, Or.inl rfl, h⟩
      · exact ⟨q, Or.inr hq, hk⟩
    · rintro ⟨q, (rfl | hq), hk⟩
      · exact Or.inl hk
      · exact Or.inr ⟨q, hq, hk⟩

theorem mem_insertA {α : Type} (l : List (Nat × α)) (k : Nat) (v : α)
    (p : Nat × α) : p ∈ insertA l k v ↔ p = (k, v) ∨ (p ∈ l ∧ p.1 ≠ k) := by
  simp only [insertA, List.mem_cons, List.mem_filter, decide_eq_true_eq]

theorem containsA_insertA_of {α : Type} {l : List (Nat × α)} {k2 : Nat}
    (k : Nat) (v : α) (h : containsA l k2 = true) :
    containsA (insertA l k v) k2 = true := by
  rcases (containsA_iff l k2).mp h with ⟨p, hp, hk⟩
  by_cases he : p.1 = k
  · exact (containsA_iff _ k2).mpr ⟨(k, v), List.mem_cons_self _ _, by
      rw [← he, hk]⟩
  · exact (containsA_iff _ k2).mpr ⟨p, (mem_insertA l k v p).mpr (Or.inr ⟨hp, he⟩), hk⟩

theorem lookupA_filter_ne {α : Type} (l : List (Nat × α)) (i j : Nat)
    (h : j ≠ i) : lookupA (l.filter fun p => p.1 ≠ i) j = lookupA l j := by
  induction l with
  | nil => rfl
  | cons p rest ih =>
    have hstep : lookupA (p :: rest) j =
        if p.1 = j then some p.2 else lookupA rest j := rfl
    by_cases hp : p.1 = i
    · rw [List.filter_cons, if_neg (by simp [hp]), ih, hstep,
        if_neg (by rw [hp]; exact fun hh => h hh.symm)]
    · rw [List.filter_cons, if_pos (by simp [hp])]
      have hstep2 : lookupA (p :: List.filter (fun p => decide (p.1 ≠ i)) rest) j =
          if p.1 = j then some p.2 else
            lookupA (List.filter (fun p => decide (p.1 ≠ i)) rest) j := rfl
      rw [hstep, hstep2, ih]

theorem getNode_lookupA {st : MemState} {id : NodeId} {n : Node}
    (h : getNode st id = .ok n) : lookupA st.nodes id = some n := by
  unfold getNode at h
  cases hl : lookupA st.nodes id with
  | none => rw [hl] at h; exact absurd h (by simp)
  | some m => rw [hl] at h; injection h with h2; rw [h2]

/-- C1 counterexample: creating a second node with the already-present id 1
returns `StorageError::ConstraintViolation` — an error that classifies as the
spec's `ConstraintViolation`, not as the `AlreadyExists` the claim names (the
code's error type has no such variant). -/
theorem c1_duplicate_create_counterexample :
    (createNode exStOne exNode1b).1 =
      .error (.ConstraintViolation "Node with ID 1 already exists") ∧
    classifyError (.ConstraintViolation "Node with ID 1 already exists") ≠
      SpecErrorKind.alreadyExists := by
  exact ⟨rfl, by decide⟩

/-- C1 (amended): creating a node whose id is already stored fails with a
`ConstraintViolation` error (not `AlreadyExists`, which the error type lacks)
and leaves the store — in particular the stored node — unchanged. -/
theorem c1_duplicate_create_constraint_violation (st : MemState) (n n2 : Node)
    (hstored : getNode st n.id = .ok n) (hid : n2.id = n.id) :
    (∃ msg, (createNode st n2).1 = .error (.ConstraintViolation msg)) ∧
    (createNode st n2).2 = st ∧
    getNode (createNode st n2).2 n.id = .ok n := by
  have hcont : containsA st.nodes n2.id = true := by
    rw [hid]
    exact containsA_of_lookupA (getNode_lookupA hstored)
  unfold createNode
  rw [if_pos hcont]
  exact ⟨⟨_, rfl⟩, rfl, hstored⟩

/-- C1 witness: the amended claim at the concrete one-node store. -/
theorem c1_duplicate_create_constraint_violation_witness :
    getNode exStOne exNode1.id = .ok exNode1 ∧
    (∃ msg, (createNode exStOne exNode1b).1 = .error (.ConstraintViolation msg)) ∧
    (createNode exStOne exNode1b).2 = exStOne ∧
    getNode (createNode exStOne exNode1b).2 exNode1.id = .ok exNode1 := by
  refine ⟨rfl, c1_duplicate_create_constraint_violation exStOne exNode1 exNode1b rfl rfl⟩

/-- C10: in the in-memory backend, creating an edge whose id is already
stored — both endpoints existing — succeeds and silently replaces the stored
edge (no error of any kind), whereas creating a node with a stored id is
rejected with a `ConstraintViolation`. -/
theorem c10_create_edge_upsert :
    (∀ (st : MemState) (e e2 : Edge), lookupA st.edges e.id = some e →
      e2.id = e.id → containsA st.nodes e2.from_node_id = true →
      containsA st.nodes e2.to_node_id = true →
      (createEdge st e2).1 = .ok e2 ∧
      lookupA (createEdge st e2).2.edges e.id = some e2) ∧
    (∀ (st : MemState) (n n2 : Node), lookupA st.nodes n.id = some n →
      n2.id = n.id →
      ∃ msg, (createNode st n2).1 = .error (.ConstraintViolation msg)) := by
  constructor
  · intro st e e2 _ hid hfrom hto
    unfold createEdge
    rw [if_neg (by simp [hfrom]), if_neg (by simp [hto])]
    refine ⟨rfl, ?_⟩
    show lookupA (insertA st.edges e2.id e2) e.id = some e2
    unfold insertA lookupA
    rw [if_pos hid]
  · intro st n n2 hstored hid
    unfold createNode
    rw [if_pos (by rw [hid]; exact containsA_of_lookupA hstored)]
    exact ⟨_, rfl⟩

/-- C10 witness: replacing edge 5 (type "owns", 1 → 2) by a new edge 5 (type
"likes", 2 → 1) succeeds, and the duplicate node create errors. -/
theorem c10_create_edge_upsert_witness :
    ((createEdge exStGraph exEdgeB).1 = .ok exEdgeB ∧
      lookupA (createEdge exStGraph exEdgeB).2.edges exEdgeA.id = some exEdgeB) ∧
    (∃ msg, (createNode exStOne exNode1b).1 =
      .error (.ConstraintViolation msg)) := by
  exact ⟨c10_create_edge_upsert.1 exStGraph exEdgeA exEdgeB rfl rfl rfl rfl,
    c10_create_edge_upsert.2 exStOne exNode1 exNode1b rfl rfl⟩

/-- C5: the in-memory backend's edge-endpoint invariant — every stored edge's
endpoints are stored node keys — holds in the empty initial state and is
preserved by every state-changing operation; moreover `delete_node` removes
every edge touching the deleted node and leaves every other node's binding
untouched. -/
theorem c5_edge_endpoint_invariant :
    EdgeInv MemState.new ∧
    (∀ (st : MemState) (n : Node), EdgeInv st → EdgeInv (createNode st n).2) ∧
    (∀ (st : MemState) (n : Node), EdgeInv st → EdgeInv (updateNode st n).2) ∧
    (∀ (st : MemState) (e : Edge), EdgeInv st → EdgeInv (createEdge st e).2) ∧
    (∀ (st : MemState) (i : EdgeId), EdgeInv st → EdgeInv (deleteEdge st i).2) ∧
    (∀ (st : MemState) (i : NodeId), EdgeInv st →
      EdgeInv (deleteNode st i).2 ∧
      (∀ p ∈ (deleteNode st i).2.edges,
        p.2.from_node_id ≠ i ∧ p.2.to_node_id ≠ i) ∧
      (∀ j, j ≠ i →
        lookupA (deleteNode st i).2.nodes j = lookupA st.nodes j)) := by
  refine ⟨?_, ?_, ?_, ?_, ?_, ?_⟩
  · intro p hp
    cases hp
  · intro st n hinv
    unfold createNode
    by_cases h : containsA st.nodes n.id
    · rw [if_pos h]
      exact hinv
    · rw [if_neg h]
      intro p hp
      have := hinv p hp
      exact ⟨containsA_insertA_of n.id n this.1, containsA_insertA_of n.id n this.2⟩
  · intro st n hinv
    unfold updateNode
    by_cases h : containsA st.nodes n.id
    · rw [if_neg (by simp [h])]
      intro p hp
      have := hinv p hp
      exact ⟨containsA_insertA_of n.id n this.1, containsA_insertA_of n.id n this.2⟩
    · rw [if_pos (by simp [h])]
      exact hinv
  · intro st e hinv
    unfold createEdge
    by_cases hf : containsA st.nodes e.from_node_id
    · by_cases ht : containsA st.nodes e.to_node_id
      · rw [if_neg (by simp [hf]), if_neg (by simp [ht])]
        intro p hp
        rcases (mem_insertA st.edges e.id e p).mp hp with rfl | ⟨hp2, _⟩
        · exact ⟨hf, ht⟩
        · exact hinv p hp2
      · rw [if_neg (by simp [hf]), if_pos (by simp [ht])]
        exact hinv
    · rw [if_pos (by simp [hf])]
      exact hinv
  · intro st i hinv
    unfold deleteEdge
    by_cases h : containsA st.edges i
    · rw [if_neg (by simp [h])]
      intro p hp
      exact hinv p (List.mem_of_mem_filter hp)
    · rw [if_pos (by simp [h])]
      exact hinv
  · intro st i hinv
    unfold deleteNode
    by_cases h : containsA st.nodes i
    · rw [if_neg (by simp [h])]
      refine ⟨?_, ?_, ?_⟩
      · intro p hp
        have hmem := List.mem_of_mem_filter hp
        have hcond := List.of_mem_filter hp
        rw [Bool.and_eq_true, decide_eq_true_eq, decide_eq_true_eq] at hcond
        have hold := hinv p hmem
        constructor
        · rcases (containsA_iff st.nodes p.2.from_node_id).mp hold.1 with ⟨q, hq, hqk⟩
          refine (containsA_iff _ _).mpr ⟨q, ?_, hqk⟩
          exact List.mem_filter.mpr ⟨hq, by simp [hqk, hcond.1]⟩
        · rcases (containsA_iff st.nodes p.2.to_node_id).mp hold.2 with ⟨q, hq, hqk⟩
          refine (containsA_iff _ _).mpr ⟨q, ?_, hqk⟩
          exact List.mem_filter.mpr ⟨hq, by simp [hqk, hcond.2]⟩
      · intro p hp
        have hcond := List.of_mem_filter hp
        rw [Bool.and_eq_true, decide_eq_true_eq, decide_eq_true_eq] at hcond
        exact hcond
      · intro j hj
        exact lookupA_filter_ne st.nodes i j hj
    · rw [if_pos (by simp [h])]
      refine ⟨hinv, ?_, fun j _ => rfl⟩
      intro p hp
      have := hinv p hp
      constructor
      · intro hfrom
        rw [hfrom] at this
        rw [this.1] at h
        exact h rfl
      · intro hto
        rw [hto] at this
        rw [this.2] at h
        exact h rfl

/-- C5 witness: the creation of edge 1 → 2 over the two-node store preserves
the invariant. -/
theorem c5_edge_endpoint_invariant_witness :
    EdgeInv (createEdge exStTwo exEdgeA).2 :=
  c5_edge_endpoint_invariant.2.2.2.1 exStTwo exEdgeA
    (fun p hp => absurd hp (by simp [exStTwo]))

/-- C2 counterexample: on the empty relational store, inserting edge 1 → 2
violates the foreign-key constraint and the code surfaces it as
`DatabaseError` — an error that classifies as the spec's `BackendError`, not
as the `NotFound` the claim requires of every backend. -/
theorem c2_pg_missing_endpoint_counterexample :
    (pgCreateEdge ⟨[], []⟩ exEdgeA).1 = .error (.DatabaseError pgConstraintMsg) ∧
    classifyError (.DatabaseError pgConstraintMsg) ≠ SpecErrorKind.notFound := by
  exact ⟨rfl, by decide⟩

/-- C2 (amended): the in-memory backend returns `NodeNotFound` for the first
missing endpoint and stores the edge on success; the relational backend has
no endpoint check in code — a missing endpoint trips the foreign-key
constraint and surfaces as `DatabaseError`, while an insert with both
endpoints present and a fresh edge id succeeds and stores the row. -/
theorem c2_create_edge_endpoint_check :
    (∀ (st : MemState) (e : Edge),
      (containsA st.nodes e.from_node_id = false →
        createEdge st e = (.error (.NodeNotFound e.from_node_id), st)) ∧
      (containsA st.nodes e.from_node_id = true →
        containsA st.nodes e.to_node_id = false →
        createEdge st e = (.error (.NodeNotFound e.to_node_id), st)) ∧
      (containsA st.nodes e.from_node_id = true →
        containsA st.nodes e.to_node_id = true →
        (createEdge st e).1 = .ok e ∧
        lookupA (createEdge st e).2.edges e.id = some e)) ∧
    (∀ (st : PgState) (e : Edge),
      (pgHasNode st e.from_node_id = false ∨ pgHasNode st e.to_node_id = false →
        (pgCreateEdge st e).1 = .error (.DatabaseError pgConstraintMsg)) ∧
      (pgHasNode st e.from_node_id = true → pgHasNode st e.to_node_id = true →
        pgHasEdge st e.id = false →
        (pgCreateEdge st e).1 = .ok e ∧ e ∈ (pgCreateEdge st e).2.edges)) := by
  constructor
  · intro st e
    refine ⟨?_, ?_, ?_⟩
    · intro hf
      unfold createEdge
      rw [if_pos (by simp [hf])]
    · intro hf ht
      unfold createEdge
      rw [if_neg (by simp [hf]), if_pos (by simp [ht])]
    · intro hf ht
      unfold createEdge
      rw [if_neg (by simp [hf]), if_neg (by simp [ht])]
      refine ⟨rfl, ?_⟩
      show lookupA (insertA st.edges e.id e) e.id = some e
      unfold insertA lookupA
      rw [if_pos rfl]
  · intro st e
    constructor
    · intro h
      unfold pgCreateEdge
      rcases h with h | h
      · rw [if_pos (by simp [h])]
      · rw [if_pos (by simp [h])]
    · intro hf ht hid
      unfold pgCreateEdge
      rw [if_neg (by simp [hf, ht, hid])]
      exact ⟨rfl, by simp⟩

/-- C2 witness: the memory-backend clauses at concrete stores — a missing
`to` endpoint yields `NodeNotFound 7`, and the valid edge 1 → 2 is stored. -/
theorem c2_create_edge_endpoint_check_witness :
    createEdge exStTwo ⟨5, "owns", 1, 7, [], 0⟩ =
      (.error (.NodeNotFound 7), exStTwo) ∧
    ((createEdge exStTwo exEdgeA).1 = .ok exEdgeA ∧
      lookupA (createEdge exStTwo exEdgeA).2.edges exEdgeA.id = some exEdgeA) ∧
    ((pgCreateEdge exPgGraph ⟨6, "owns", 2, 1, [], 0⟩).1 =
        .ok (⟨6, "owns", 2, 1, [], 0⟩ : Edge) ∧
      (⟨6, "owns", 2, 1, [], 0⟩ : Edge) ∈
        (pgCreateEdge exPgGraph ⟨6, "owns", 2, 1, [], 0⟩).2.edges) := by
  refine ⟨(c2_create_edge_endpoint_check.1 exStTwo _).2.1 rfl rfl,
    (c2_create_edge_endpoint_check.1 exStTwo exEdgeA).2.2 rfl rfl,
    (c2_create_edge_endpoint_check.2 exPgGraph _).2 rfl rfl rfl⟩

/-- C3: in the in-memory backend, `get_neighbors(_, _, Both)` returns exactly
(as a set) the combination of the outgoing neighbors (targets of
`get_edges_from` looked up as nodes) and the incoming neighbors (sources of
`get_edges_to` looked up as nodes).  In the relational backend the claim
fails: both `match direction` statements fall through for `Both`, so the
result is empty even when the combination is not — shown here on the concrete
graph 1 → 2. -/
theorem c3_get_neighbors_both :
    (∀ (st : MemState) (node_id : NodeId) (et : Option String) (n : Node),
      n ∈ getNeighbors st node_id et .Both ↔
        n ∈ (getEdgesFrom st node_id et).filterMap
              (fun e => lookupA st.nodes e.to_node_id) ++
            (getEdgesTo st node_id et).filterMap
              (fun e => lookupA st.nodes e.from_node_id)) ∧
    (pgGetNeighbors exPgGraph 1 none .Both = [] ∧
      (pgGetEdgesFrom exPgGraph 1 none).filterMap
          (fun e => (pgGetNode exPgGraph e.to_node_id).toOption) ++
        (pgGetEdgesTo exPgGraph 1 none).filterMap
          (fun e => (pgGetNode exPgGraph e.from_node_id).toOption) ≠ []) := by
  constructor
  · intro st node_id et n
    simp only [getNeighbors, getEdgesFrom, getEdgesTo]
    constructor
    · intro hmem
      rcases List.mem_filterMap.mp hmem with ⟨i, hiL, hlook⟩
      rcases List.mem_flatMap.mp hiL with ⟨p, hp, hi⟩
      by_cases hc : (matchesEdgeType et p.2 &&
          (p.2.from_node_id == node_id || p.2.to_node_id == node_id)) = true
      · rw [if_pos hc] at hi
        have hi2 := List.mem_singleton.mp hi
        rw [Bool.and_eq_true, Bool.or_eq_true] at hc
        apply List.mem_append.mpr
        by_cases hfrom : (p.2.from_node_id == node_id) = true
        · left
          apply List.mem_filterMap.mpr
          refine ⟨p.2, List.mem_map.mpr ⟨p, List.mem_filter.mpr
            ⟨hp, by rw [Bool.and_eq_true]; exact ⟨hfrom, hc.1⟩⟩, rfl⟩, ?_⟩
          rw [if_pos hfrom] at hi2
          rw [← hi2]
          exact hlook
        · right
          have hto : (p.2.to_node_id == node_id) = true := hc.2.resolve_left hfrom
          apply List.mem_filterMap.mpr
          refine ⟨p.2, List.mem_map.mpr ⟨p, List.mem_filter.mpr
            ⟨hp, by rw [Bool.and_eq_true]; exact ⟨hto, hc.1⟩⟩, rfl⟩, ?_⟩
          rw [if_neg hfrom] at hi2
          rw [← hi2]
          exact hlook
      · rw [if_neg hc] at hi
        cases hi
    · intro hmem
      apply List.mem_filterMap.mpr
      rcases List.mem_append.mp hmem with hm | hm
      · rcases List.mem_filterMap.mp hm with ⟨e, he, hlook⟩
        rcases List.mem_map.mp he with ⟨q, hq, rfl⟩
        have hpred := List.of_mem_filter hq
        rw [Bool.and_eq_true] at hpred
        refine ⟨q.2.to_node_id, ?_, hlook⟩
        apply List.mem_flatMap.mpr
        refine ⟨q, List.mem_of_mem_filter hq, ?_⟩
        rw [if_pos (by simp [hpred.1, hpred.2])]
        simp [hpred.1]
      · rcases List.mem_filterMap.mp hm with ⟨e, he, hlook⟩
        rcases List.mem_map.mp he with ⟨q, hq, rfl⟩
        have hpred := List.of_mem_filter hq
        rw [Bool.and_eq_true] at hpred
        by_cases hfrom : (q.2.from_node_id == node_id) = true
        · have hfe : q.2.from_node_id = node_id := eq_of_beq hfrom
          have hte : q.2.to_node_id = node_id := eq_of_beq hpred.1
          refine ⟨q.2.to_node_id, ?_, ?_⟩
          · apply List.mem_flatMap.mpr
            refine ⟨q, List.mem_of_mem_filter hq, ?_⟩
            rw [if_pos (by simp [hpred.1, hpred.2])]
            simp [hfrom]
          · rw [hte, ← hfe]
            exact hlook
        · refine ⟨q.2.from_node_id, ?_, hlook⟩
          apply List.mem_flatMap.mpr
          refine ⟨q, List.mem_of_mem_filter hq, ?_⟩
          rw [if_pos (by simp [hpred.1, hpred.2])]
          simp [hfrom]
  · constructor
    · rfl
    · rw [show (pgGetEdgesFrom exPgGraph 1 none).filterMap
            (fun e => (pgGetNode exPgGraph e.to_node_id).toOption) ++
          (pgGetEdgesTo exPgGraph 1 none).filterMap
            (fun e => (pgGetNode exPgGraph e.from_node_id).toOption) =
          [exNode2] from rfl]
      exact List.cons_ne_nil _ _

theorem searchLe_total (q : SearchQuery) :
    ∀ a b, searchLe q a b = true ∨ searchLe q b a = true := by
  intro a b
  unfold searchLe
  cases q.order_direction with
  | Asc =>
    simp only [decide_eq_true_eq]
    exact Int.le_total _ _
  | Desc =>
    simp only [decide_eq_true_eq]
    exact Int.le_total _ _

theorem searchLe_trans (q : SearchQuery) :
    ∀ a b c, searchLe q a b = true → searchLe q b c = true →
      searchLe q a c = true := by
  intro a b c
  unfold searchLe
  cases q.order_direction with
  | Asc =>
    simp only [decide_eq_true_eq]
    exact fun h1 h2 => le_trans h1 h2
  | Desc =>
    simp only [decide_eq_true_eq]
    exact fun h1 h2 => le_trans h2 h1

theorem searchLe_iff_orderedByQuery (q : SearchQuery) (a b : Node) :
    searchLe q a b = true ↔ orderedByQuery q a b := by
  unfold searchLe orderedByQuery orderKeyOf
  cases q.order_direction with
  | Asc =>
    cases q.order_by <;> simp
  | Desc =>
    cases q.order_by <;> simp

/-- C4: for the in-memory backend and every query, the returned items are
pairwise in the requested order (the `order_by` key, ascending or descending
per `order_direction`), `total_count` is the number of all matches ignoring
pagination, and `has_more` holds exactly when matches exist beyond
`offset + limit`.  The relational backend falsifies the claim: its search
always orders by `updated_at DESC` regardless of the query (and its
`SearchResults` literal carries no `total_count`/`has_more` at all), shown on
a concrete store where the ascending creation-time order is violated. -/
theorem c4_search_order_and_pagination_flags :
    (∀ (st : MemState) (q : SearchQuery),
      (searchNodes st q).items.Pairwise (orderedByQuery q) ∧
      (searchNodes st q).total_count =
        ((st.nodes.map (·.2)).filter (fun n => matchesSearchQuery n q)).length ∧
      ((searchNodes st q).has_more = true ↔
        q.offset + q.limit < (searchNodes st q).total_count)) ∧
    (pgSearchItems exPgTimes exQueryCreatedAsc = [exNodeNew, exNodeOld] ∧
      ¬ (pgSearchItems exPgTimes exQueryCreatedAsc).Pairwise
          (orderedByQuery exQueryCreatedAsc)) := by
  constructor
  · intro st q
    refine ⟨?_, ?_, ?_⟩
    · have hsorted := pairwise_sortByLe (searchLe_total q) (searchLe_trans q)
        ((st.nodes.map (·.2)).filter (fun n => matchesSearchQuery n q))
      have hsub : (searchNodes st q).items.Sublist
          (sortByLe (searchLe q)
            ((st.nodes.map (·.2)).filter (fun n => matchesSearchQuery n q))) := by
        show (((sortByLe (searchLe q) _).drop q.offset).take q.limit).Sublist _
        exact ((List.take_sublist _ _).trans (List.drop_sublist _ _))
      have := hsorted.sublist hsub
      exact this.imp fun h => (searchLe_iff_orderedByQuery q _ _).mp h
    · show (sortByLe (searchLe q) _).length = _
      exact length_sortByLe _ _
    · show decide (_ > q.offset + q.limit) = true ↔ _
      rw [decide_eq_true_iff]
      exact Iff.rfl
  · constructor
    · rfl
    · rw [show pgSearchItems exPgTimes exQueryCreatedAsc =
          [exNodeNew, exNodeOld] from rfl]
      intro hp
      have := (List.pairwise_cons.mp hp).1 exNodeOld (List.mem_singleton.mpr rfl)
      unfold orderedByQuery orderKeyOf exQueryCreatedAsc at this
      simp only [SearchQuery.default] at this
      exact absurd this (by decide)

/-- Changing only `limit`/`offset` leaves the comparator unchanged. -/
theorem searchLe_limit_offset (q : SearchQuery) (l o : Nat) :
    searchLe { q with limit := l, offset := o } = searchLe q := rfl

/-- Changing only `limit`/`offset` leaves the match predicate unchanged. -/
theorem matchesSearchQuery_limit_offset (q : SearchQuery) (l o : Nat) :
    (fun x => matchesSearchQuery x { q with limit := l, offset := o }) =
      (fun x => matchesSearchQuery x q) := rfl

/-- C8: over a fixed store and filter, the first two pages of size `n`
concatenate — in order — to the single page of size `2n`, provided
`total_count` agrees across the calls (in this sequential model it always
does; the hypothesis mirrors the claim's proviso). -/
theorem c8_search_pagination_concat (st : MemState) (q : SearchQuery) (n : Nat)
    (_htc : (searchNodes st { q with limit := n, offset := 0 }).total_count =
      (searchNodes st { q with limit := n, offset := n }).total_count) :
    (searchNodes st { q with limit := n, offset := 0 }).items ++
      (searchNodes st { q with limit := n, offset := n }).items =
    (searchNodes st { q with limit := 2 * n, offset := 0 }).items := by
  clear _htc
  simp only [searchNodes, searchLe_limit_offset, matchesSearchQuery_limit_offset]
  rw [List.drop_zero, two_mul, List.take_add]

/-- C9 (spec-modelled): the bounded breadth-first relation discovery returns
nothing at depth 0; at any depth it never contains the start node, repeats no
node, and contains only nodes within `k` hops of the start (following edges
in both directions). -/
theorem c9_related_bfs_bounds :
    (∀ (st : MemState) (start : NodeId), related st start 0 = []) ∧
    (∀ (st : MemState) (start : NodeId) (k : Nat), (related st start k).Nodup) ∧
    (∀ (st : MemState) (start : NodeId) (k : Nat) (v : NodeId),
      v ∈ related st start k → v ≠ start ∧ reachWithin st.edges k start v) := by
  refine ⟨fun st start => rfl, ?_, ?_⟩
  · intro st start k
    exact relatedAux_nodup st.edges k [start] [] [start] List.Pairwise.nil
      (fun x hx => absurd hx (by simp))
  · intro st start k v hv
    constructor
    · rcases relatedAux_not_visited st.edges k [start] [] [start] v hv with h | h
      · exact absurd h (by simp)
      · intro heq
        exact h (by rw [heq]; exact List.mem_singleton.mpr rfl)
    · rcases relatedAux_reach st.edges k [start] [] [start] v hv with h | ⟨f, hf, hr⟩
      · exact absurd h (by simp)
      · rw [List.mem_singleton.mp hf] at hr
        exact hr

/-- C9 witness: on the graph 1 → 2, depth-1 discovery from node 1 finds node
2, which is distinct from the start and one hop away. -/
theorem c9_related_bfs_bounds_witness :
    (2 : NodeId) ≠ 1 ∧ reachWithin exStGraph.edges 1 1 2 :=
  c9_related_bfs_bounds.2.2 exStGraph 1 1 2 (by decide)

/-- C8 witness: three stored notes, default query, page size 1. -/
theorem c8_search_pagination_concat_witness :
    (searchNodes exStThree
        { SearchQuery.default with limit := 1, offset := 0 }).total_count =
      (searchNodes exStThree
        { SearchQuery.default with limit := 1, offset := 1 }).total_count ∧
    (searchNodes exStThree
        { SearchQuery.default with limit := 1, offset := 0 }).items ++
      (searchNodes exStThree
        { SearchQuery.default with limit := 1, offset := 1 }).items =
    (searchNodes exStThree
        { SearchQuery.default with limit := 2 * 1, offset := 0 }).items :=
  ⟨rfl, c8_search_pagination_concat exStThree SearchQuery.default 1 rfl⟩
